import Mathlib

/-!
# NoReplyMention: the mention policy of `NoReplyMention.plugin.js`

A shallow embedding of the settings helpers (`defaultSettings`, `loadSettings`,
`parseList`, `addToList`, `removeFromList`), of the bulk replace done by the
settings panel, and of the decision function `shouldMentionUser`, followed by
the properties proved about them.

Conventions of the embedding.

* A user id or guild id handed to the plugin is `null`/`undefined` or a
  string: it is an `Option String`, `none` standing for both `null` and
  `undefined`.  JavaScript truthiness of such a value is `idTruthy`: the
  empty string is falsy.
* Console logging (`log`, `debug`, `warn`) reads the settings and writes to
  the console only; it is left out.
* `saveSettings` writes `this.settings` to the data slot and logs; it leaves
  `this.settings` as it is, so the mutators are modelled as functions from
  settings to settings.
-/

namespace NoReplyMention

/-! ## Well-typed settings -/

/-- The settings object when every field has the type of its default:
four arrays of strings and four boolean flags. -/
structure Settings where
  whitelist : List String
  blacklist : List String
  pingServers : List String
  blacklistServers : List String
  pingInDMs : Bool
  enableLogging : Bool
  verboseLogging : Bool
  serverBlacklistRespectsWhitelist : Bool
  deriving DecidableEq

/-- The getter `defaultSettings`. -/
def defaultSettings : Settings where
  whitelist := []
  blacklist := []
  pingServers := []
  blacklistServers := []
  pingInDMs := false
  enableLogging := true
  verboseLogging := false
  serverBlacklistRespectsWhitelist := false

/-- The second argument of `shouldMentionUser` together with its first:
`targetUserId` and `{ guildId, isDM }`.  An `isDM` left `undefined` is
`false`. -/
structure Context where
  targetUserId : Option String
  guildId : Option String
  isDM : Bool
  deriving DecidableEq

/-- JavaScript truthiness of a value that is `null`/`undefined` or a string. -/
def idTruthy : Option String → Bool
  | none => false
  | some s => s != ""

/-- The expression `!!(id && list.includes(id))` for an array of strings. -/
def inList (id : Option String) (list : List String) : Bool :=
  match id with
  | none => false
  | some s => idTruthy (some s) && list.contains s

/-- The end of `shouldMentionUser` (source lines 249 to 277), reached when
neither blacklist has returned: the whitelist, the ping servers, the direct
conversation, and the default. -/
def decisionTail (inUserWhitelist inGuildPingList : Bool)
    (guildTruthy isDM pingInDMs : Bool) : Bool :=
  if inUserWhitelist then true
  else if inGuildPingList then true
  else if !guildTruthy && isDM && pingInDMs then true
  else false

/-- The body of `shouldMentionUser` after the four membership tests (source
lines 220 to 277): the user blacklist returns false; the server blacklist
returns false unless `serverBlacklistRespectsWhitelist && inUserWhitelist`, in
which case the remaining checks apply. -/
def decision (inUserBlacklist inUserWhitelist inGuildBlacklist inGuildPingList : Bool)
    (guildTruthy isDM pingInDMs serverBlacklistRespectsWhitelist : Bool) : Bool :=
  if inUserBlacklist then false
  else if inGuildBlacklist then
    if serverBlacklistRespectsWhitelist && inUserWhitelist then
      decisionTail inUserWhitelist inGuildPingList guildTruthy isDM pingInDMs
    else false
  else decisionTail inUserWhitelist inGuildPingList guildTruthy isDM pingInDMs

/-- The method `shouldMentionUser(targetUserId, { guildId, isDM })` on
well-typed settings. -/
def shouldMentionUser (settings : Settings) (context : Context) : Bool :=
  let inUserBlacklist := inList context.targetUserId settings.blacklist
  let inUserWhitelist := inList context.targetUserId settings.whitelist
  let inGuildBlacklist := inList context.guildId settings.blacklistServers
  let inGuildPingList := inList context.guildId settings.pingServers
  decision inUserBlacklist inUserWhitelist inGuildBlacklist inGuildPingList
    (idTruthy context.guildId) context.isDM settings.pingInDMs
    settings.serverBlacklistRespectsWhitelist

/-- The rule set of scenarios A and B: blacklist `U1`, ping server `G1`. -/
def scenarioRules : Settings :=
  { defaultSettings with blacklist := ["U1"], pingServers := ["G1"] }

/-- The rule set with all four lists empty and `pingInDMs` and
`serverBlacklistRespectsWhitelist` false, the logging flags being free. -/
def emptyRules (enableLogging verboseLogging : Bool) : Settings :=
  { defaultSettings with enableLogging := enableLogging, verboseLogging := verboseLogging }

/-! ## Untyped values: what a persisted record can hold -/

/-- A JavaScript value as far as the settings can hold one: `undefined` and
what `JSON.parse` produces.  Numbers are restricted to integers; an object is
the list of its own enumerable properties in insertion order. -/
inductive JSVal where
  | undefined : JSVal
  | null : JSVal
  | bool (b : Bool) : JSVal
  | num (n : Int) : JSVal
  | str (s : String) : JSVal
  | arr (items : List JSVal) : JSVal
  | obj (props : List (String × JSVal)) : JSVal

/-- JavaScript truthiness (`ToBoolean`). -/
def JSVal.truthy : JSVal → Bool
  | .undefined => false
  | .null => false
  | .bool b => b
  | .num n => n != 0
  | .str s => s != ""
  | .arr _ => true
  | .obj _ => true

/-- The test `Array.isArray(v)`. -/
def JSVal.isArray : JSVal → Bool
  | .arr _ => true
  | _ => false

/-- Strict equality `v === id` of a value with a string. -/
def JSVal.eqStr (id : String) : JSVal → Bool
  | .str s => s == id
  | _ => false

/-- The exceptions the modelled code can throw. -/
inductive JSError where
  | typeError : JSError
  deriving DecidableEq

/-- The call `v.includes(id)` with a string argument: `Array.prototype.includes`
on an array, `String.prototype.includes` (substring test) on a string, and a
`TypeError` on every other value (`null` and `undefined` have no properties,
the others have no callable `includes`). -/
def JSVal.includes (v : JSVal) (id : String) : Except JSError Bool :=
  match v with
  | .arr items => .ok (items.any (JSVal.eqStr id))
  | .str s => .ok (decide (id.toList <:+: s.toList))
  | _ => .error .typeError

/-- The settings object with untyped fields, as `Object.assign` builds it.
Only the eight properties the plugin reads are kept. -/
structure RawSettings where
  whitelist : JSVal
  blacklist : JSVal
  pingServers : JSVal
  blacklistServers : JSVal
  pingInDMs : JSVal
  enableLogging : JSVal
  verboseLogging : JSVal
  serverBlacklistRespectsWhitelist : JSVal

/-- An array of strings as a value. -/
def JSVal.ofList (l : List String) : JSVal := .arr (l.map .str)

/-- Well-typed settings as a settings object. -/
def Settings.toRaw (s : Settings) : RawSettings where
  whitelist := .ofList s.whitelist
  blacklist := .ofList s.blacklist
  pingServers := .ofList s.pingServers
  blacklistServers := .ofList s.blacklistServers
  pingInDMs := .bool s.pingInDMs
  enableLogging := .bool s.enableLogging
  verboseLogging := .bool s.verboseLogging
  serverBlacklistRespectsWhitelist := .bool s.serverBlacklistRespectsWhitelist

/-- The assignment `settings[key] = value`; a key other than the eight
properties kept has no effect on them. -/
def RawSettings.set (s : RawSettings) (key : String) (value : JSVal) : RawSettings :=
  if key = "whitelist" then { s with whitelist := value }
  else if key = "blacklist" then { s with blacklist := value }
  else if key = "pingServers" then { s with pingServers := value }
  else if key = "blacklistServers" then { s with blacklistServers := value }
  else if key = "pingInDMs" then { s with pingInDMs := value }
  else if key = "enableLogging" then { s with enableLogging := value }
  else if key = "verboseLogging" then { s with verboseLogging := value }
  else if key = "serverBlacklistRespectsWhitelist" then
    { s with serverBlacklistRespectsWhitelist := value }
  else s

/-- The own enumerable properties `Object.assign` copies from a source value,
as far as they can bear one of the eight names kept: those of an object.  An
array or a string has index properties only and the other values have none. -/
def JSVal.ownProps : JSVal → List (String × JSVal)
  | .obj props => props
  | _ => []

/-- The call `Object.assign({}, target, source)` on the eight properties kept:
each property of the source is assigned in order. -/
def objectAssign (target : RawSettings) (source : JSVal) : RawSettings :=
  source.ownProps.foldl (fun acc p => acc.set p.1 p.2) target

/-- The method `loadSettings`, `loaded` being the value of
`BdApi.Data.load(this.meta.name, "settings")` (`undefined` when nothing is
stored). -/
def loadSettings (loaded : JSVal) : RawSettings :=
  let saved := if loaded.truthy then loaded else .obj []
  objectAssign defaultSettings.toRaw saved

/-- The expression `!!(id && list.includes(id))` on an untyped `list`: the
call is made only for a truthy `id`. -/
def inListJS (id : Option String) (list : JSVal) : Except JSError Bool :=
  match id with
  | none => .ok false
  | some s => if idTruthy (some s) then list.includes s else .ok false

/-- The method `shouldMentionUser` on a settings object with untyped fields.
The four membership tests are evaluated first, in the order of the source; one
that throws ends the call. -/
def shouldMentionUserJS (settings : RawSettings) (context : Context) :
    Except JSError Bool := do
  let inUserBlacklist ← inListJS context.targetUserId settings.blacklist
  let inUserWhitelist ← inListJS context.targetUserId settings.whitelist
  let inGuildBlacklist ← inListJS context.guildId settings.blacklistServers
  let inGuildPingList ← inListJS context.guildId settings.pingServers
  pure (decision inUserBlacklist inUserWhitelist inGuildBlacklist inGuildPingList
    (idTruthy context.guildId) context.isDM settings.pingInDMs.truthy
    settings.serverBlacklistRespectsWhitelist.truthy)

/-! ## The list parser -/

/-- The characters matched by `\s` in a regular expression, which are also the
ones `String.prototype.trim` strips: white space and line terminators. -/
def isJSSpace (c : Char) : Bool :=
  let n := c.toNat
  n == 0x09 || n == 0x0A || n == 0x0B || n == 0x0C || n == 0x0D || n == 0x20 ||
  n == 0xA0 || n == 0x1680 || (0x2000 ≤ n && n ≤ 0x200A) || n == 0x2028 ||
  n == 0x2029 || n == 0x202F || n == 0x205F || n == 0x3000 || n == 0xFEFF

/-- The characters of the class `[\s,]`. -/
def isSeparator (c : Char) : Bool := isJSSpace c || c == ','

/-- The scan behind `split(/[\s,]+/)`: `cur` is the piece read so far and
`inRun` tells that the last character read belongs to a separator run.  A
separator that starts a run closes the current piece; the other separators of
the run are skipped, the match of `+` being greedy. -/
def splitGo : Bool → List Char → List Char → List (List Char)
  | _, cur, [] => [cur]
  | inRun, cur, c :: cs =>
    if isSeparator c then
      if inRun then splitGo true cur cs else cur :: splitGo true [] cs
    else splitGo false (cur ++ [c]) cs

/-- The call `text.split(/[\s,]+/)`: the pieces between the maximal runs of
separators, an empty piece standing before a leading run and after a trailing
one. -/
def splitSeparators (text : List Char) : List (List Char) := splitGo false [] text

/-- The call `s.trim()`. -/
def trim (s : List Char) : List Char :=
  ((s.dropWhile isJSSpace).reverse.dropWhile isJSSpace).reverse

/-- The method `parseList` on the characters of the text:
`text.split(/[\s,]+/).map((s) => s.trim()).filter(Boolean)`, after the guard
`if (!text) return []`. -/
def parseChars (text : List Char) : List (List Char) :=
  if text.isEmpty then []
  else ((splitSeparators text).map trim).filter fun s => !s.isEmpty

/-- The method `parseList(text)`. -/
def parseList (text : String) : List String :=
  (parseChars text.toList).map String.mk

/-! ## The mutators -/

/-- The property names the mutators are called with: the four rule lists. -/
inductive ListName where
  | whitelist
  | blacklist
  | pingServers
  | blacklistServers
  deriving DecidableEq

/-- The read `settings[listName]` on well-typed settings. -/
def Settings.getList (s : Settings) : ListName → List String
  | .whitelist => s.whitelist
  | .blacklist => s.blacklist
  | .pingServers => s.pingServers
  | .blacklistServers => s.blacklistServers

/-- The assignment `settings[listName] = list` on well-typed settings. -/
def Settings.setList (s : Settings) (listName : ListName) (list : List String) : Settings :=
  match listName with
  | .whitelist => { s with whitelist := list }
  | .blacklist => { s with blacklist := list }
  | .pingServers => { s with pingServers := list }
  | .blacklistServers => { s with blacklistServers := list }

/-- The read `settings[listName]` on a settings object. -/
def RawSettings.getList (s : RawSettings) : ListName → JSVal
  | .whitelist => s.whitelist
  | .blacklist => s.blacklist
  | .pingServers => s.pingServers
  | .blacklistServers => s.blacklistServers

/-- The assignment `settings[listName] = value` on a settings object. -/
def RawSettings.setList (s : RawSettings) (listName : ListName) (value : JSVal) :
    RawSettings :=
  match listName with
  | .whitelist => { s with whitelist := value }
  | .blacklist => { s with blacklist := value }
  | .pingServers => { s with pingServers := value }
  | .blacklistServers => { s with blacklistServers := value }

/-- The method `addToList(listName, id)` on a settings object: nothing for a
falsy `id`; a property that is no array is replaced by `[]`; the `id` is
pushed unless the array includes it. -/
def addToListJS (listName : ListName) (id : String) (settings : RawSettings) : RawSettings :=
  if id = "" then settings
  else
    let settings :=
      if (settings.getList listName).isArray then settings
      else settings.setList listName (.arr [])
    match settings.getList listName with
    | .arr items =>
      if items.any (JSVal.eqStr id) then settings
      else settings.setList listName (.arr (items ++ [.str id]))
    | _ => settings

/-- The method `removeFromList(listName, id)` on a settings object: nothing
for a falsy `id` or a property that is no array; otherwise the array is
replaced by `list.filter((x) => x !== id)`. -/
def removeFromListJS (listName : ListName) (id : String) (settings : RawSettings) :
    RawSettings :=
  if id = "" then settings
  else
    match settings.getList listName with
    | .arr items => settings.setList listName (.arr (items.filter fun x => !JSVal.eqStr id x))
    | _ => settings

/-- The method `addToList(listName, id)` on well-typed settings, where the
guard `Array.isArray` always passes. -/
def addToList (listName : ListName) (id : String) (settings : Settings) : Settings :=
  if id = "" then settings
  else
    let list := settings.getList listName
    if list.contains id then settings
    else settings.setList listName (list ++ [id])

/-- The method `removeFromList(listName, id)` on well-typed settings. -/
def removeFromList (listName : ListName) (id : String) (settings : Settings) : Settings :=
  if id = "" then settings
  else settings.setList listName ((settings.getList listName).filter fun x => x != id)

/-- The `onChange` handlers of the four text areas of the settings panel:
`this.settings[listName] = this.parseList(value)`. -/
def bulkReplace (listName : ListName) (value : String) (settings : Settings) : Settings :=
  settings.setList listName (parseList value)

/-- The invariant of the data model: no rule list holds an identifier twice. -/
def Settings.NoDuplicates (s : Settings) : Prop :=
  ∀ listName, (s.getList listName).Nodup

instance (s : Settings) : Decidable s.NoDuplicates := by
  unfold Settings.NoDuplicates
  exact decidable_of_iff
    ((s.getList .whitelist).Nodup ∧ (s.getList .blacklist).Nodup ∧
      (s.getList .pingServers).Nodup ∧ (s.getList .blacklistServers).Nodup)
    ⟨fun h l => by cases l <;> simp [h.1, h.2.1, h.2.2.1, h.2.2.2],
     fun h => ⟨h _, h _, h _, h _⟩⟩

/-! ## Well-typedness of a settings object -/

/-- The value is a string. -/
def JSVal.isStr : JSVal → Bool
  | .str _ => true
  | _ => false

/-- The value is an array of strings. -/
def JSVal.isStringArray : JSVal → Bool
  | .arr items => items.all JSVal.isStr
  | _ => false

/-- The value is a boolean. -/
def JSVal.isBool : JSVal → Bool
  | .bool _ => true
  | _ => false

/-- The settings object consists of four arrays of strings and boolean flags. -/
def RawSettings.wellTyped (s : RawSettings) : Bool :=
  s.whitelist.isStringArray && s.blacklist.isStringArray && s.pingServers.isStringArray &&
  s.blacklistServers.isStringArray && s.pingInDMs.isBool && s.enableLogging.isBool &&
  s.verboseLogging.isBool && s.serverBlacklistRespectsWhitelist.isBool

/-- A property of a persisted record has the type of its default; a property
the plugin does not read is free. -/
def propWellTyped (key : String) (value : JSVal) : Bool :=
  if key = "whitelist" ∨ key = "blacklist" ∨ key = "pingServers" ∨ key = "blacklistServers" then
    value.isStringArray
  else if key = "pingInDMs" ∨ key = "enableLogging" ∨ key = "verboseLogging" ∨
      key = "serverBlacklistRespectsWhitelist" then
    value.isBool
  else true

/-! ## Reading a settings object by property name -/

/-- The names of the eight properties of `defaultSettings`. -/
def settingNames : List String :=
  ["whitelist", "blacklist", "pingServers", "blacklistServers", "pingInDMs",
   "enableLogging", "verboseLogging", "serverBlacklistRespectsWhitelist"]

/-- The read `settings[key]` of one of the eight properties kept; another key
reads as `undefined`. -/
def RawSettings.get (s : RawSettings) (key : String) : JSVal :=
  if key = "whitelist" then s.whitelist
  else if key = "blacklist" then s.blacklist
  else if key = "pingServers" then s.pingServers
  else if key = "blacklistServers" then s.blacklistServers
  else if key = "pingInDMs" then s.pingInDMs
  else if key = "enableLogging" then s.enableLogging
  else if key = "verboseLogging" then s.verboseLogging
  else if key = "serverBlacklistRespectsWhitelist" then s.serverBlacklistRespectsWhitelist
  else .undefined

/-- The invariant of the data model: no rule list holds the empty string. -/
def Settings.NoEmpty (s : Settings) : Prop :=
  ∀ listName, "" ∉ s.getList listName

instance (s : Settings) : Decidable s.NoEmpty := by
  unfold Settings.NoEmpty
  exact decidable_of_iff
    ("" ∉ s.getList .whitelist ∧ "" ∉ s.getList .blacklist ∧
      "" ∉ s.getList .pingServers ∧ "" ∉ s.getList .blacklistServers)
    ⟨fun h l => by cases l <;> simp [h.1, h.2.1, h.2.2.1, h.2.2.2],
     fun h => ⟨h _, h _, h _, h _⟩⟩

/-! ## The precedence of the specification -/

/-- An optional identifier is present and a member of the list. -/
def presentIn (id : Option String) (list : List String) : Prop :=
  ∃ s, id = some s ∧ s ∈ list

instance (id : Option String) (list : List String) : Decidable (presentIn id list) :=
  match id with
  | none => isFalse (by rintro ⟨s, h, _⟩; cases h)
  | some s =>
    if h : s ∈ list then isTrue ⟨s, rfl, h⟩
    else isFalse (by rintro ⟨t, ht, hm⟩; cases ht; exact h hm)

/-- The six steps of the precedence in the words of the specification, the
first matching step deciding. -/
def precedence (rules : Settings) (context : Context) : Bool :=
  -- (1) target present and in blacklist
  if presentIn context.targetUserId rules.blacklist then false
  -- (2) guild present and in blacklistServers, unless the override applies
  else if presentIn context.guildId rules.blacklistServers ∧
      ¬ (rules.serverBlacklistRespectsWhitelist = true ∧
          presentIn context.targetUserId rules.whitelist) then false
  -- (3) target present and in whitelist
  else if presentIn context.targetUserId rules.whitelist then true
  -- (4) guild present and in pingServers
  else if presentIn context.guildId rules.pingServers then true
  -- (5) guild absent, direct conversation, pingInDMs
  else if context.guildId = none ∧ context.isDM = true ∧ rules.pingInDMs = true then true
  -- (6) otherwise
  else false

/-- The identifiers of a context are well formed: one that is present is not
the empty string. -/
def Context.WellFormed (context : Context) : Prop :=
  context.targetUserId ≠ some "" ∧ context.guildId ≠ some ""

instance (context : Context) : Decidable context.WellFormed := by
  unfold Context.WellFormed; infer_instance

/-- The specification of the parser: `Tokenizes text tokens` holds when
`tokens` are, in order of occurrence, the maximal non-empty substrings of
`text` free of separators.  The text is a run of separators (possibly empty),
or a run of separators, then a token that the end of the text or a separator
follows, then a text that the remaining tokens tokenize. -/
inductive Tokenizes : List Char → List (List Char) → Prop
  | done (seps : List Char) (hseps : ∀ c ∈ seps, isSeparator c = true) :
      Tokenizes seps []
  | token (seps tok rest : List Char) (toks : List (List Char))
      (hseps : ∀ c ∈ seps, isSeparator c = true)
      (hne : tok ≠ [])
      (htok : ∀ c ∈ tok, isSeparator c = false)
      (hrest : ∀ c ∈ rest.head?, isSeparator c = true)
      (h : Tokenizes rest toks) :
      Tokenizes (seps ++ tok ++ rest) (tok :: toks)

/-- An identifier as the code tests it: the empty string counts as absent. -/
def emptyAsAbsent : Option String → Option String
  | none => none
  | some s => if s = "" then none else some s

/-- The context with each identifier that is the empty string counted as
absent. -/
def Context.normalize (context : Context) : Context where
  targetUserId := emptyAsAbsent context.targetUserId
  guildId := emptyAsAbsent context.guildId
  isDM := context.isDM

/-- A rule set whose blacklist holds the empty string, with the ping server
`G1`. -/
def emptyBlacklistedRules : Settings :=
  { defaultSettings with blacklist := [""], pingServers := ["G1"] }

/-- A rule set whose blacklist holds the empty string, with `pingInDMs` set. -/
def emptyBlacklistedDMRules : Settings :=
  { defaultSettings with blacklist := [""], pingInDMs := true }

/-- A rule set whose `blacklistServers` holds the empty string, with
`pingInDMs` set. -/
def emptyGuildBlockedRules : Settings :=
  { defaultSettings with blacklistServers := [""], pingInDMs := true }

/-- A rule set whose whitelist holds the empty string, with the blocked guild
`G1` and the override on. -/
def emptyWhitelistedRules : Settings :=
  { defaultSettings with
    whitelist := [""], blacklistServers := ["G1"], serverBlacklistRespectsWhitelist := true }

/-- The defaults with `pingInDMs` set. -/
def pingInDMsRules : Settings :=
  { defaultSettings with pingInDMs := true }

/-! ## Helper lemmas -/

/-- The chain of early returns as one boolean expression. -/
theorem decision_eq (inUserBlacklist inUserWhitelist inGuildBlacklist inGuildPingList
    guildTruthy isDM pingInDMs flag : Bool) :
    decision inUserBlacklist inUserWhitelist inGuildBlacklist inGuildPingList
      guildTruthy isDM pingInDMs flag =
    (!inUserBlacklist && (!inGuildBlacklist || (flag && inUserWhitelist)) &&
      (inUserWhitelist || inGuildPingList || (!guildTruthy && isDM && pingInDMs))) := by
  cases inUserBlacklist <;> cases inUserWhitelist <;> cases inGuildBlacklist <;>
    cases inGuildPingList <;> cases guildTruthy <;> cases isDM <;> cases pingInDMs <;>
    cases flag <;> rfl

theorem inList_none (list : List String) : inList none list = false := rfl

theorem inList_some (s : String) (list : List String) :
    inList (some s) list = true ↔ s ≠ "" ∧ s ∈ list := by
  simp [inList, idTruthy]

theorem inList_eq_true_iff (id : Option String) (list : List String)
    (h : id ≠ some "") : inList id list = true ↔ presentIn id list := by
  cases id with
  | none => simp [inList, presentIn]
  | some s =>
    have hs : s ≠ "" := fun e => h (by rw [e])
    simp [inList_some, presentIn, hs]

theorem idTruthy_eq_false_iff (id : Option String) (h : id ≠ some "") :
    idTruthy id = false ↔ id = none := by
  cases id with
  | none => simp [idTruthy]
  | some s =>
    have hs : s ≠ "" := fun e => h (by rw [e])
    simp [idTruthy, hs]

theorem any_eqStr_map_str (id : String) (l : List String) :
    (l.map JSVal.str).any (JSVal.eqStr id) = l.contains id := by
  induction l with
  | nil => rfl
  | cons a l ih =>
    simp only [List.map_cons, List.any_cons, ih, List.contains_cons, JSVal.eqStr]
    rw [Bool.beq_comm]

theorem includes_ofList (l : List String) (id : String) :
    (JSVal.ofList l).includes id = .ok (l.contains id) := by
  simp only [JSVal.ofList, JSVal.includes, any_eqStr_map_str]

theorem inListJS_ofList (id : Option String) (l : List String) :
    inListJS id (JSVal.ofList l) = .ok (inList id l) := by
  cases id with
  | none => rfl
  | some s =>
    simp only [inListJS, inList, includes_ofList]
    cases idTruthy (some s) <;> simp

/-- On well-typed settings the untyped `shouldMentionUserJS` never throws and
returns the value of `shouldMentionUser`. -/
theorem shouldMentionUserJS_toRaw (s : Settings) (context : Context) :
    shouldMentionUserJS s.toRaw context = .ok (shouldMentionUser s context) := by
  simp only [shouldMentionUserJS, shouldMentionUser, Settings.toRaw, inListJS_ofList,
    JSVal.truthy]
  rfl

theorem inList_eq_decide (id : Option String) (list : List String) (h : id ≠ some "") :
    inList id list = decide (presentIn id list) := by
  rw [Bool.eq_iff_iff, inList_eq_true_iff id list h, decide_eq_true_iff]

theorem idTruthy_eq_decide (id : Option String) (h : id ≠ some "") :
    idTruthy id = !decide (id = none) := by
  cases id with
  | none => rfl
  | some s =>
    have hs : s ≠ "" := fun e => h (by rw [e])
    simp [idTruthy, hs]

/-- The precedence of the specification as one boolean expression. -/
theorem precedence_eq (rules : Settings) (context : Context) :
    precedence rules context =
    (!decide (presentIn context.targetUserId rules.blacklist) &&
      (!decide (presentIn context.guildId rules.blacklistServers) ||
        (rules.serverBlacklistRespectsWhitelist &&
          decide (presentIn context.targetUserId rules.whitelist))) &&
      (decide (presentIn context.targetUserId rules.whitelist) ||
        decide (presentIn context.guildId rules.pingServers) ||
        (decide (context.guildId = none) && context.isDM && rules.pingInDMs))) := by
  unfold precedence
  by_cases h2 : presentIn context.guildId rules.blacklistServers <;>
    split_ifs <;> simp_all

/-! ### Lemmas on the parser -/

theorem dropWhile_eq_self_of_forall {p : Char → Bool} (l : List Char)
    (h : ∀ c ∈ l, p c = false) : l.dropWhile p = l := by
  cases l with
  | nil => rfl
  | cons a l => simp [List.dropWhile_cons, h a (List.mem_cons_self a l)]

theorem isJSSpace_eq_false_of_isSeparator {c : Char} (h : isSeparator c = false) :
    isJSSpace c = false := by
  simp only [isSeparator, Bool.or_eq_false_iff] at h
  exact h.1

theorem trim_eq_self (s : List Char) (h : ∀ c ∈ s, isSeparator c = false) :
    trim s = s := by
  have h1 : ∀ c ∈ s, isJSSpace c = false := fun c hc =>
    isJSSpace_eq_false_of_isSeparator (h c hc)
  have h2 : ∀ c ∈ s.reverse, isJSSpace c = false := fun c hc =>
    h1 c (List.mem_reverse.1 hc)
  simp only [trim, dropWhile_eq_self_of_forall s h1, dropWhile_eq_self_of_forall _ h2,
    List.reverse_reverse]

/-- No piece of the split holds a separator. -/
theorem splitGo_separator_free (rest : List Char) :
    ∀ (inRun : Bool) (cur : List Char), (∀ c ∈ cur, isSeparator c = false) →
      ∀ piece ∈ splitGo inRun cur rest, ∀ c ∈ piece, isSeparator c = false := by
  induction rest with
  | nil =>
    intro inRun cur hcur piece hp
    simp only [splitGo, List.mem_singleton] at hp
    subst hp; exact hcur
  | cons a rest ih =>
    intro inRun cur hcur piece hp
    simp only [splitGo] at hp
    by_cases ha : isSeparator a = true
    · rw [if_pos ha] at hp
      cases inRun with
      | true => exact ih true cur hcur piece (by simpa using hp)
      | false =>
        simp only [Bool.false_eq_true, if_false, List.mem_cons] at hp
        rcases hp with hp | hp
        · subst hp; exact hcur
        · exact ih true [] (by simp) piece hp
    · rw [if_neg ha] at hp
      refine ih false (cur ++ [a]) ?_ piece hp
      intro c hc
      rcases List.mem_append.1 hc with hc | hc
      · exact hcur c hc
      · rw [List.mem_singleton.1 hc]; simpa using ha

/-- Trimming changes no piece, and the guard on the empty text is subsumed:
`parseChars` keeps the non-empty pieces of the split. -/
theorem parseChars_eq_filter (text : List Char) :
    parseChars text = (splitSeparators text).filter fun s => !s.isEmpty := by
  have hmap : (splitSeparators text).map trim = splitSeparators text := by
    conv_rhs => rw [← List.map_id (splitSeparators text)]
    refine List.map_congr_left fun piece hp => ?_
    exact trim_eq_self piece (splitGo_separator_free text false [] (by simp) piece hp)
  unfold parseChars
  cases text with
  | nil => rfl
  | cons a l => simp only [List.isEmpty_cons, Bool.false_eq_true, if_false, hmap]

/-- The non-empty pieces of the scan tokenize what was read. -/
theorem tokenizes_splitGo (rest : List Char) :
    ∀ (inRun : Bool) (cur seps : List Char),
      (∀ c ∈ cur, isSeparator c = false) → (∀ c ∈ seps, isSeparator c = true) →
      (inRun = true → cur = []) →
      Tokenizes (seps ++ cur ++ rest)
        ((splitGo inRun cur rest).filter fun s => !s.isEmpty) := by
  induction rest with
  | nil =>
    intro inRun cur seps hcur hseps _
    cases cur with
    | nil => simpa [splitGo] using Tokenizes.done seps hseps
    | cons a cur =>
      have := Tokenizes.token seps (a :: cur) [] [] hseps (by simp) hcur (by simp)
        (Tokenizes.done [] (by simp))
      simpa [splitGo] using this
  | cons a rest ih =>
    intro inRun cur seps hcur hseps hrun
    by_cases ha : isSeparator a = true
    · have hseps1 : ∀ c ∈ seps ++ [a], isSeparator c = true := by
        intro c hc
        rcases List.mem_append.1 hc with hc | hc
        · exact hseps c hc
        · rw [List.mem_singleton.1 hc]; exact ha
      cases cur with
      | nil =>
        have h := ih true [] (seps ++ [a]) (by simp) hseps1 (fun _ => rfl)
        cases inRun <;> simpa [splitGo, ha] using h
      | cons b cur =>
        cases inRun with
        | true => exact absurd (hrun rfl) (by simp)
        | false =>
          have h := ih true [] [a] (by simp) (by simpa using ha) (fun _ => rfl)
          have := Tokenizes.token seps (b :: cur) (a :: rest) _ hseps (by simp) hcur
            (by simpa using ha) (by simpa using h)
          simpa [splitGo, ha] using this
    · have hcur1 : ∀ c ∈ cur ++ [a], isSeparator c = false := by
        intro c hc
        rcases List.mem_append.1 hc with hc | hc
        · exact hcur c hc
        · rw [List.mem_singleton.1 hc]; simpa using ha
      have h := ih false (cur ++ [a]) seps hcur1 hseps (by simp)
      simpa [splitGo, ha] using h

theorem tokenizes_parseChars (text : List Char) : Tokenizes text (parseChars text) := by
  rw [parseChars_eq_filter]
  simpa [splitSeparators] using tokenizes_splitGo text false [] [] (by simp) (by simp) (by simp)

/-- A list splits in one way only into a prefix on which `p` holds and a rest
whose first element, if any, fails `p`. -/
theorem append_eq_append_of_span {p : Char → Bool} :
    ∀ (l₁ l₂ m₁ m₂ : List Char), (∀ c ∈ l₁, p c = true) → (∀ c ∈ l₂, p c = true) →
      (∀ c ∈ m₁.head?, p c = false) → (∀ c ∈ m₂.head?, p c = false) →
      l₁ ++ m₁ = l₂ ++ m₂ → l₁ = l₂ ∧ m₁ = m₂ := by
  intro l₁
  induction l₁ with
  | nil =>
    intro l₂ m₁ m₂ _ h2 hm1 _ h
    cases l₂ with
    | nil => exact ⟨rfl, by simpa using h⟩
    | cons y l₂ =>
      simp only [List.nil_append, List.cons_append] at h
      subst h
      have hy := h2 y (List.mem_cons_self y l₂)
      have hn := hm1 y (by simp)
      rw [hy] at hn; cases hn
  | cons x l₁ ih =>
    intro l₂ m₁ m₂ h1 h2 hm1 hm2 h
    cases l₂ with
    | nil =>
      simp only [List.nil_append, List.cons_append] at h
      subst h
      have hx := h1 x (List.mem_cons_self x l₁)
      have hn := hm2 x (by simp)
      rw [hx] at hn; cases hn
    | cons y l₂ =>
      simp only [List.cons_append, List.cons.injEq] at h
      obtain ⟨hxy, h⟩ := h
      obtain ⟨hl, hm⟩ := ih l₂ m₁ m₂ (fun c hc => h1 c (List.mem_cons_of_mem x hc))
        (fun c hc => h2 c (List.mem_cons_of_mem y hc)) hm1 hm2 h
      exact ⟨by rw [hxy, hl], hm⟩

theorem head?_append_of_ne_nil {tok rest : List Char} (hne : tok ≠ []) :
    (tok ++ rest).head? = tok.head? := by
  cases tok with
  | nil => exact absurd rfl hne
  | cons a tok => rfl

/-- The specification determines the tokens: a text is tokenized in one way. -/
theorem Tokenizes.unique {text : List Char} {toks₁ toks₂ : List (List Char)}
    (h₁ : Tokenizes text toks₁) (h₂ : Tokenizes text toks₂) : toks₁ = toks₂ := by
  induction h₁ generalizing toks₂ with
  | done seps hseps =>
    cases h₂ with
    | done _ _ => rfl
    | token seps₂ tok₂ rest₂ toks hs hne htok hrest h =>
      cases tok₂ with
      | nil => exact absurd rfl hne
      | cons a tok₂ =>
        have h1 := hseps a (by simp)
        have h2 := htok a (List.mem_cons_self a tok₂)
        rw [h1] at h2; cases h2
  | token seps tok rest toks hseps hne htok hrest h ih =>
    generalize hte : seps ++ tok ++ rest = text at h₂
    cases h₂ with
    | done seps₂ hs =>
      cases tok with
      | nil => exact absurd rfl hne
      | cons a tok =>
        have h1 := hs a (by rw [← hte]; simp)
        have h2 := htok a (List.mem_cons_self a tok)
        rw [h1] at h2; cases h2
    | token seps₂ tok₂ rest₂ toks₂ hs₂ hne₂ htok₂ hrest₂ h₂ =>
      rw [List.append_assoc, List.append_assoc] at hte
      have hhead : ∀ (t r : List Char), t ≠ [] → (∀ c ∈ t, isSeparator c = false) →
          ∀ c ∈ (t ++ r).head?, isSeparator c = false := by
        intro t r hn ht c hc
        rw [head?_append_of_ne_nil hn] at hc
        exact ht c (List.mem_of_mem_head? hc)
      obtain ⟨_, hrest12⟩ := append_eq_append_of_span seps seps₂ (tok ++ rest) (tok₂ ++ rest₂)
        hseps hs₂ (hhead tok rest hne htok) (hhead tok₂ rest₂ hne₂ htok₂) hte
      obtain ⟨htok12, hr12⟩ := append_eq_append_of_span (p := fun c => !isSeparator c)
        tok tok₂ rest rest₂ (fun c hc => by simp [htok c hc]) (fun c hc => by simp [htok₂ c hc])
        (fun c hc => by simp [hrest c hc]) (fun c hc => by simp [hrest₂ c hc]) hrest12
      subst htok12 hr12
      rw [ih h₂]

/-! ### Lemmas on the mutators -/

theorem getList_toRaw (s : Settings) (l : ListName) :
    s.toRaw.getList l = .ofList (s.getList l) := by
  cases l <;> rfl

theorem setList_toRaw (s : Settings) (l : ListName) (list : List String) :
    s.toRaw.setList l (.ofList list) = (s.setList l list).toRaw := by
  cases l <;> rfl

theorem getList_setList (s : Settings) (l : ListName) (list : List String) :
    (s.setList l list).getList l = list := by
  cases l <;> rfl

theorem getList_setList_of_ne (s : Settings) {l k : ListName} (list : List String)
    (h : k ≠ l) : (s.setList l list).getList k = s.getList k := by
  cases l <;> cases k <;> first | rfl | exact absurd rfl h

theorem setList_setList (s : Settings) (l : ListName) (a b : List String) :
    (s.setList l a).setList l b = s.setList l b := by
  cases l <;> rfl

theorem setList_getList (s : Settings) (l : ListName) : s.setList l (s.getList l) = s := by
  cases l <;> rfl

/-- On well-typed settings `addToListJS` is `addToList`. -/
theorem addToListJS_toRaw (l : ListName) (id : String) (s : Settings) :
    addToListJS l id s.toRaw = (addToList l id s).toRaw := by
  unfold addToListJS addToList
  by_cases hid : id = ""
  · simp [hid]
  · simp only [hid, if_false, getList_toRaw, JSVal.ofList, JSVal.isArray, if_true,
      any_eqStr_map_str]
    by_cases hc : (s.getList l).contains id = true
    · simp only [hc, if_true]
    · simp only [hc, Bool.false_eq_true, if_false]
      rw [← setList_toRaw]
      simp [JSVal.ofList]

theorem filter_eqStr_map_str (id : String) (list : List String) :
    (list.map JSVal.str).filter (fun x => !JSVal.eqStr id x) =
      (list.filter fun x => x != id).map JSVal.str := by
  induction list with
  | nil => rfl
  | cons a list ih =>
    rw [List.map_cons, List.filter_cons, List.filter_cons, ih]
    by_cases h : a = id <;> simp [JSVal.eqStr, h]

/-- On well-typed settings `removeFromListJS` is `removeFromList`. -/
theorem removeFromListJS_toRaw (l : ListName) (id : String) (s : Settings) :
    removeFromListJS l id s.toRaw = (removeFromList l id s).toRaw := by
  unfold removeFromListJS removeFromList
  by_cases hid : id = ""
  · simp [hid]
  · simp only [hid, if_false, getList_toRaw, JSVal.ofList, filter_eqStr_map_str]
    rw [← setList_toRaw]
    rfl

/-! ### Lemmas on loading -/

theorem exists_ofList_of_isStringArray (v : JSVal) (h : v.isStringArray = true) :
    ∃ l : List String, v = .ofList l := by
  cases v with
  | arr items =>
    simp only [JSVal.isStringArray] at h
    induction items with
    | nil => exact ⟨[], rfl⟩
    | cons a items ih =>
      simp only [List.all_cons, Bool.and_eq_true] at h
      obtain ⟨l, hl⟩ := ih h.2
      cases a with
      | str s =>
        refine ⟨s :: l, ?_⟩
        simp only [JSVal.ofList, List.map_cons, JSVal.arr.injEq, List.cons.injEq, true_and] at hl ⊢
        exact hl
      | _ => simp [JSVal.isStr] at h
  | _ => simp [JSVal.isStringArray] at h

theorem exists_bool_of_isBool (v : JSVal) (h : v.isBool = true) : ∃ b : Bool, v = .bool b := by
  cases v with
  | bool b => exact ⟨b, rfl⟩
  | _ => simp [JSVal.isBool] at h

/-- A well-typed settings object is the image of well-typed settings. -/
theorem exists_toRaw_of_wellTyped (r : RawSettings) (h : r.wellTyped = true) :
    ∃ s : Settings, r = s.toRaw := by
  simp only [RawSettings.wellTyped, Bool.and_eq_true] at h
  obtain ⟨⟨⟨⟨⟨⟨⟨h1, h2⟩, h3⟩, h4⟩, h5⟩, h6⟩, h7⟩, h8⟩ := h
  obtain ⟨l1, e1⟩ := exists_ofList_of_isStringArray _ h1
  obtain ⟨l2, e2⟩ := exists_ofList_of_isStringArray _ h2
  obtain ⟨l3, e3⟩ := exists_ofList_of_isStringArray _ h3
  obtain ⟨l4, e4⟩ := exists_ofList_of_isStringArray _ h4
  obtain ⟨b5, e5⟩ := exists_bool_of_isBool _ h5
  obtain ⟨b6, e6⟩ := exists_bool_of_isBool _ h6
  obtain ⟨b7, e7⟩ := exists_bool_of_isBool _ h7
  obtain ⟨b8, e8⟩ := exists_bool_of_isBool _ h8
  refine ⟨⟨l1, l2, l3, l4, b5, b6, b7, b8⟩, ?_⟩
  cases r
  simp only [Settings.toRaw, RawSettings.mk.injEq]
  exact ⟨e1, e2, e3, e4, e5, e6, e7, e8⟩

theorem isStringArray_ofList (l : List String) : (JSVal.ofList l).isStringArray = true := by
  simp [JSVal.ofList, JSVal.isStringArray, JSVal.isStr]

theorem wellTyped_toRaw (s : Settings) : s.toRaw.wellTyped = true := by
  simp [RawSettings.wellTyped, Settings.toRaw, isStringArray_ofList, JSVal.isBool]

/-- Assigning a property of the type of its default keeps a settings object
well typed. -/
theorem wellTyped_set (r : RawSettings) (key : String) (value : JSVal)
    (hr : r.wellTyped = true) (hv : propWellTyped key value = true) :
    (r.set key value).wellTyped = true := by
  simp only [RawSettings.wellTyped, Bool.and_eq_true] at hr
  unfold propWellTyped at hv
  unfold RawSettings.set
  split_ifs at hv ⊢ <;> simp_all [RawSettings.wellTyped]

theorem wellTyped_foldl_set (props : List (String × JSVal)) :
    ∀ r : RawSettings, r.wellTyped = true →
      (∀ p ∈ props, propWellTyped p.1 p.2 = true) →
      (props.foldl (fun acc p => acc.set p.1 p.2) r).wellTyped = true := by
  induction props with
  | nil => intro r hr _; exact hr
  | cons p props ih =>
    intro r hr hp
    rw [List.foldl_cons]
    exact ih _ (wellTyped_set r p.1 p.2 hr (hp p (List.mem_cons_self p props)))
      (fun q hq => hp q (List.mem_cons_of_mem p hq))

theorem ownProps_of_not_truthy (v : JSVal) (h : v.truthy = false) : v.ownProps = [] := by
  cases v <;> first | rfl | simp [JSVal.truthy] at h

/-! ### Lemmas on the invariant -/

theorem noDuplicates_setList (s : Settings) (l : ListName) (list : List String)
    (hs : s.NoDuplicates) (hl : list.Nodup) : (s.setList l list).NoDuplicates := by
  intro k
  by_cases hk : k = l
  · subst hk; rw [getList_setList]; exact hl
  · rw [getList_setList_of_ne s list hk]; exact hs k

theorem addToList_of_mem (l : ListName) (id : String) (s : Settings)
    (h : id ∈ s.getList l) : addToList l id s = s := by
  simp [addToList, h]

theorem addToList_of_not_mem (l : ListName) (id : String) (s : Settings)
    (hid : id ≠ "") (h : id ∉ s.getList l) :
    addToList l id s = s.setList l (s.getList l ++ [id]) := by
  simp [addToList, hid, h]

theorem noDuplicates_addToList (l : ListName) (id : String) (s : Settings)
    (hs : s.NoDuplicates) : (addToList l id s).NoDuplicates := by
  by_cases hid : id = ""
  · simpa [addToList, hid] using hs
  · by_cases hmem : id ∈ s.getList l
    · rw [addToList_of_mem l id s hmem]; exact hs
    · rw [addToList_of_not_mem l id s hid hmem]
      refine noDuplicates_setList s l _ hs ?_
      rw [List.nodup_append]
      refine ⟨hs l, List.nodup_singleton id, ?_⟩
      intro a ha hb
      rw [List.mem_singleton.1 hb] at ha
      exact hmem ha

theorem noDuplicates_removeFromList (l : ListName) (id : String) (s : Settings)
    (hs : s.NoDuplicates) : (removeFromList l id s).NoDuplicates := by
  unfold removeFromList
  by_cases hid : id = ""
  · simpa [hid] using hs
  · simp only [hid, if_false]
    exact noDuplicates_setList s l _ hs ((hs l).filter _)

theorem tokenizes_separator_free {text : List Char} {toks : List (List Char)}
    (h : Tokenizes text toks) :
    ∀ tok ∈ toks, tok ≠ [] ∧ ∀ c ∈ tok, isSeparator c = false := by
  induction h with
  | done seps hseps => intro tok htok; cases htok
  | token seps tok rest toks hseps hne htok hrest h ih =>
    intro t ht
    rcases List.mem_cons.1 ht with ht | ht
    · subst ht; exact ⟨hne, htok⟩
    · exact ih t ht

theorem map_toList_parseList (text : String) :
    (parseList text).map String.toList = parseChars text.toList := by
  unfold parseList
  rw [List.map_map]
  conv_rhs => rw [← List.map_id (parseChars text.toList)]
  exact List.map_congr_left fun _ _ => rfl

theorem any_eqStr_append_self (id : String) (items : List JSVal) :
    (items ++ [JSVal.str id]).any (JSVal.eqStr id) = true := by
  simp [JSVal.eqStr]

theorem raw_getList_setList (r : RawSettings) (l : ListName) (v : JSVal) :
    (r.setList l v).getList l = v := by
  cases l <;> rfl

theorem raw_setList_setList (r : RawSettings) (l : ListName) (a b : JSVal) :
    (r.setList l a).setList l b = r.setList l b := by
  cases l <;> rfl

/-- After `addToListJS` with a non-empty `id` the property is an array that
includes the `id`, and a second call changes nothing. -/
theorem addToListJS_idempotent (l : ListName) (id : String) (r : RawSettings) :
    addToListJS l id (addToListJS l id r) = addToListJS l id r := by
  by_cases hid : id = ""
  · simp [addToListJS, hid]
  · have key : ∀ r : RawSettings, ∀ items, r.getList l = .arr items →
        items.any (JSVal.eqStr id) = true → addToListJS l id r = r := by
      intro r items hr hany
      simp [addToListJS, hid, hr, JSVal.isArray, hany]
    cases hget : r.getList l with
    | arr items =>
      by_cases hany : items.any (JSVal.eqStr id) = true
      · rw [key r items hget hany, key r items hget hany]
      · have h1 : addToListJS l id r = r.setList l (.arr (items ++ [.str id])) := by
          simp [addToListJS, hid, hget, JSVal.isArray, hany]
        rw [h1]
        exact key _ _ (raw_getList_setList _ _ _) (any_eqStr_append_self id items)
    | _ =>
      have h1 : addToListJS l id r = r.setList l (.arr ([] ++ [.str id])) := by
        simp [addToListJS, hid, hget, JSVal.isArray, raw_getList_setList, raw_setList_setList,
          JSVal.eqStr]
      rw [h1]
      exact key _ _ (raw_getList_setList _ _ _) (any_eqStr_append_self id [])

/-! ### Lemmas on reading a loaded settings object -/

theorem get_set_self (r : RawSettings) (key : String) (value : JSVal)
    (hkey : key ∈ settingNames) : (r.set key value).get key = value := by
  simp only [settingNames, List.mem_cons, List.mem_singleton, List.not_mem_nil, or_false] at hkey
  rcases hkey with h | h | h | h | h | h | h | h <;> subst h <;> rfl

theorem get_set_of_ne (r : RawSettings) (key other : String) (value : JSVal)
    (hne : other ≠ key) : (r.set other value).get key = r.get key := by
  have hne2 : key ≠ other := fun e => hne e.symm
  unfold RawSettings.set
  split_ifs with h1 h2 h3 h4 h5 h6 h7 h8
  all_goals first
    | rfl
    | (subst other; simp only [RawSettings.get]; simp [hne2])

/-- A property the source does not hold keeps the value of the target. -/
theorem get_foldl_set_of_not_mem (props : List (String × JSVal)) (key : String) :
    ∀ r : RawSettings, key ∉ props.map Prod.fst →
      (props.foldl (fun acc p => acc.set p.1 p.2) r).get key = r.get key := by
  induction props with
  | nil => intro r _; rfl
  | cons p props ih =>
    intro r h
    simp only [List.map_cons, List.mem_cons, not_or] at h
    rw [List.foldl_cons, ih _ h.2]
    exact get_set_of_ne r key p.1 p.2 (fun e => h.1 e.symm)

/-- A property the source holds, under a name it holds once, gets the value of
the source. -/
theorem get_foldl_set_of_mem (props : List (String × JSVal)) (key : String) (value : JSVal)
    (hkey : key ∈ settingNames) :
    ∀ r : RawSettings, (props.map Prod.fst).Nodup → (key, value) ∈ props →
      (props.foldl (fun acc p => acc.set p.1 p.2) r).get key = value := by
  induction props with
  | nil => intro r _ h; cases h
  | cons p props ih =>
    intro r hnd hmem
    simp only [List.map_cons, List.nodup_cons] at hnd
    rw [List.foldl_cons]
    rcases List.mem_cons.1 hmem with h | h
    · subst h
      rw [get_foldl_set_of_not_mem props key _ hnd.1]
      exact get_set_self r key value hkey
    · exact ih _ hnd.2 h

/-! ### Lemmas on the empty string and on growing a list -/

theorem parseList_ne_empty (text : String) : ∀ t ∈ parseList text, t ≠ "" := by
  intro t ht
  have h := tokenizes_parseChars text.toList
  rw [← map_toList_parseList] at h
  have hne := (tokenizes_separator_free h t.toList (List.mem_map_of_mem _ ht)).1
  exact fun e => hne (by rw [e]; rfl)

theorem noEmpty_setList (s : Settings) (l : ListName) (list : List String)
    (hs : s.NoEmpty) (hl : "" ∉ list) : (s.setList l list).NoEmpty := by
  intro k
  by_cases hk : k = l
  · subst hk; rw [getList_setList]; exact hl
  · rw [getList_setList_of_ne s list hk]; exact hs k

theorem addToList_empty (l : ListName) (s : Settings) : addToList l "" s = s := by
  simp [addToList]

/-- A call of `addToList` changes nothing or appends the id to the named list. -/
theorem addToList_cases (l : ListName) (id : String) (s : Settings) :
    addToList l id s = s ∨ addToList l id s = s.setList l (s.getList l ++ [id]) := by
  by_cases hid : id = ""
  · left; rw [hid]; exact addToList_empty l s
  · by_cases hmem : id ∈ s.getList l
    · left; exact addToList_of_mem l id s hmem
    · right; exact addToList_of_not_mem l id s hid hmem

theorem noEmpty_addToList (l : ListName) (id : String) (s : Settings)
    (hs : s.NoEmpty) : (addToList l id s).NoEmpty := by
  by_cases hid : id = ""
  · rw [hid, addToList_empty]; exact hs
  · rcases addToList_cases l id s with h | h
    · rw [h]; exact hs
    · rw [h]
      refine noEmpty_setList s l _ hs ?_
      intro hmem
      rcases List.mem_append.1 hmem with hm | hm
      · exact hs l hm
      · exact hid (List.mem_singleton.1 hm).symm

theorem noEmpty_removeFromList (l : ListName) (id : String) (s : Settings)
    (hs : s.NoEmpty) : (removeFromList l id s).NoEmpty := by
  unfold removeFromList
  by_cases hid : id = ""
  · simpa [hid] using hs
  · simp only [hid, if_false]
    exact noEmpty_setList s l _ hs (fun hmem => hs l (List.mem_of_mem_filter hmem))

theorem noEmpty_bulkReplace (l : ListName) (text : String) (s : Settings)
    (hs : s.NoEmpty) : (bulkReplace l text s).NoEmpty :=
  noEmpty_setList s l _ hs (fun hmem => parseList_ne_empty text "" hmem rfl)

theorem inList_mono (id : Option String) {list larger : List String}
    (hsub : ∀ x ∈ list, x ∈ larger) (h : inList id list = true) :
    inList id larger = true := by
  cases id with
  | none => simp [inList] at h
  | some s =>
    rw [inList_some] at h ⊢
    exact ⟨h.1, hsub s h.2⟩

/-- A user blacklist test that turns true keeps a false decision false. -/
theorem decision_false_of_userBlacklist :
    ∀ (a a2 w gb gp gt d p f : Bool), decision a w gb gp gt d p f = false →
      (a = true → a2 = true) → decision a2 w gb gp gt d p f = false := by
  decide

/-- A server blacklist test that turns true keeps a false decision false. -/
theorem decision_false_of_guildBlacklist :
    ∀ (a w gb gb2 gp gt d p f : Bool), decision a w gb gp gt d p f = false →
      (gb = true → gb2 = true) → decision a w gb2 gp gt d p f = false := by
  decide

/-! ### Lemmas on the empty identifier -/

theorem inList_empty (list : List String) : inList (some "") list = false := by
  simp [inList, idTruthy]

theorem inList_emptyAsAbsent (id : Option String) (list : List String) :
    inList (emptyAsAbsent id) list = inList id list := by
  cases id with
  | none => rfl
  | some s =>
    by_cases hs : s = ""
    · subst hs; simp [emptyAsAbsent, inList_empty, inList_none]
    · simp [emptyAsAbsent, hs]

theorem idTruthy_emptyAsAbsent (id : Option String) :
    idTruthy (emptyAsAbsent id) = idTruthy id := by
  cases id with
  | none => rfl
  | some s =>
    by_cases hs : s = ""
    · subst hs; simp [emptyAsAbsent, idTruthy]
    · simp [emptyAsAbsent, hs]

theorem emptyAsAbsent_ne_empty (id : Option String) : emptyAsAbsent id ≠ some "" := by
  cases id with
  | none => simp [emptyAsAbsent]
  | some s =>
    by_cases hs : s = ""
    · simp [emptyAsAbsent, hs]
    · simp [emptyAsAbsent, hs]

theorem emptyAsAbsent_of_ne (id : Option String) (h : id ≠ some "") :
    emptyAsAbsent id = id := by
  cases id with
  | none => rfl
  | some s =>
    have hs : s ≠ "" := fun e => h (by rw [e])
    simp [emptyAsAbsent, hs]

/-- The decision reads the identifiers through their truthiness only. -/
theorem shouldMentionUser_normalize (rules : Settings) (context : Context) :
    shouldMentionUser rules context.normalize = shouldMentionUser rules context := by
  simp only [shouldMentionUser, Context.normalize, inList_emptyAsAbsent, idTruthy_emptyAsAbsent]

theorem normalize_wellFormed (context : Context) : context.normalize.WellFormed :=
  ⟨emptyAsAbsent_ne_empty _, emptyAsAbsent_ne_empty _⟩

theorem normalize_of_wellFormed (context : Context) (h : context.WellFormed) :
    context.normalize = context := by
  obtain ⟨t, g, d⟩ := context
  simp only [Context.normalize, emptyAsAbsent_of_ne t h.1, emptyAsAbsent_of_ne g h.2]

/-- On a context whose identifiers are not the empty string the decision is
the precedence as the specification words it. -/
theorem shouldMentionUser_eq_precedence_of_wellFormed (rules : Settings) (context : Context)
    (hwf : context.WellFormed) :
    shouldMentionUser rules context = precedence rules context := by
  obtain ⟨ht, hg⟩ := hwf
  rw [precedence_eq, shouldMentionUser, decision_eq, inList_eq_decide _ _ ht,
    inList_eq_decide _ _ ht, inList_eq_decide _ _ hg, inList_eq_decide _ _ hg,
    idTruthy_eq_decide _ hg, Bool.not_not]

theorem shouldMentionUser_empty_target (rules : Settings) (context : Context)
    (h : context.targetUserId = some "") :
    shouldMentionUser rules context =
      shouldMentionUser rules { context with targetUserId := none } := by
  simp only [shouldMentionUser, h, inList_empty, inList_none]

theorem shouldMentionUser_empty_guild (rules : Settings) (context : Context)
    (h : context.guildId = some "") :
    shouldMentionUser rules context =
      shouldMentionUser rules { context with guildId := none } := by
  simp only [shouldMentionUser, h, inList_empty, inList_none, idTruthy]
  simp

/-! ## The decision function -/

/-- C1 (as it fails): with `pingServers` holding `G1` and a blacklist that holds
the empty string, a target that is the empty string in `G1` is present and in
the blacklist, so the precedence as stated gives false at step 1, while
`shouldMentionUser` returns true. -/
theorem shouldMentionUser_ne_precedence_empty_target :
    presentIn (some "") emptyBlacklistedRules.blacklist ∧
    precedence emptyBlacklistedRules ⟨some "", some "G1", false⟩ = false ∧
    shouldMentionUser emptyBlacklistedRules ⟨some "", some "G1", false⟩ = true := by
  decide

/-- C1 (amended): on every rule set and every context `shouldMentionUser` returns
the value of the six-step first-match-wins precedence evaluated with each
identifier that is the empty string counted as absent; on a context whose
identifiers are not the empty string this is the precedence as stated. -/
theorem shouldMentionUser_eq_precedence (rules : Settings) (context : Context) :
    shouldMentionUser rules context = precedence rules context.normalize ∧
    (context.WellFormed → shouldMentionUser rules context = precedence rules context) := by
  constructor
  · rw [← shouldMentionUser_normalize]
    exact shouldMentionUser_eq_precedence_of_wellFormed rules _ (normalize_wellFormed context)
  · exact shouldMentionUser_eq_precedence_of_wellFormed rules context

/-- Scenario B, where the precedence as stated applies, and a direct
conversation whose guild id is the empty string, where it applies to the
context without guild. -/
theorem shouldMentionUser_eq_precedence_witness :
    shouldMentionUser scenarioRules ⟨some "U2", some "G1", false⟩ =
      precedence scenarioRules ⟨some "U2", some "G1", false⟩ ∧
    shouldMentionUser pingInDMsRules ⟨some "U3", some "", true⟩ =
      precedence pingInDMsRules ⟨some "U3", none, true⟩ :=
  ⟨(shouldMentionUser_eq_precedence scenarioRules ⟨some "U2", some "G1", false⟩).2 (by decide),
   (shouldMentionUser_eq_precedence pingInDMsRules ⟨some "U3", some "", true⟩).1⟩

/-- C2 (as it fails): with a blacklist that holds the empty string and
`pingInDMs` set, a target that is the empty string is a member of the
blacklist and `shouldMentionUser` returns true in a direct conversation. -/
theorem shouldMentionUser_blacklisted_empty_target :
    "" ∈ emptyBlacklistedDMRules.blacklist ∧
    shouldMentionUser emptyBlacklistedDMRules ⟨some "", none, true⟩ = true := by
  decide

/-- C2 (amended): when the target user is not the empty string and is a member of
the blacklist, `shouldMentionUser` returns false, whatever the other lists and
flags hold; a target that is the empty string is treated as absent:
`shouldMentionUser` returns what it returns for the context without target. -/
theorem shouldMentionUser_blacklisted (rules : Settings) (context : Context) :
    (∀ u : String, context.targetUserId = some u → u ≠ "" → u ∈ rules.blacklist →
      shouldMentionUser rules context = false) ∧
    (context.targetUserId = some "" →
      shouldMentionUser rules context =
        shouldMentionUser rules { context with targetUserId := none }) := by
  refine ⟨fun u htarget hu hmem => ?_, shouldMentionUser_empty_target rules context⟩
  have h : inList context.targetUserId rules.blacklist = true := by
    rw [htarget]; exact (inList_some u rules.blacklist).2 ⟨hu, hmem⟩
  simp [shouldMentionUser, decision_eq, h]

/-- Scenario A: blacklist `U1`, ping server `G1`, target `U1` in `G1` gives false. -/
theorem shouldMentionUser_blacklisted_witness :
    shouldMentionUser scenarioRules ⟨some "U1", some "G1", false⟩ = false :=
  (shouldMentionUser_blacklisted scenarioRules ⟨some "U1", some "G1", false⟩).1 "U1" rfl
    (by decide) (by decide)

/-- C3 (as it fails): with `serverBlacklistRespectsWhitelist` false,
`blacklistServers` holding the empty string and `pingInDMs` set, a guild id
that is the empty string is a member of `blacklistServers` and
`shouldMentionUser` returns true for a direct conversation. -/
theorem shouldMentionUser_guild_blacklisted_empty_guild :
    emptyGuildBlockedRules.serverBlacklistRespectsWhitelist = false ∧
    "" ∈ emptyGuildBlockedRules.blacklistServers ∧
    shouldMentionUser emptyGuildBlockedRules ⟨some "U1", some "", true⟩ = true := by
  decide

/-- C3 (amended): with `serverBlacklistRespectsWhitelist` false, a guild id that is
not the empty string and is a member of `blacklistServers` makes
`shouldMentionUser` return false, also for a whitelisted target and a guild
that is in `pingServers` too; a guild id that is the empty string is treated as
absent: `shouldMentionUser` returns what it returns for the context without
guild. -/
theorem shouldMentionUser_guild_blacklisted (rules : Settings) (context : Context) :
    (∀ g : String, rules.serverBlacklistRespectsWhitelist = false →
      context.guildId = some g → g ≠ "" → g ∈ rules.blacklistServers →
      shouldMentionUser rules context = false) ∧
    (context.guildId = some "" →
      shouldMentionUser rules context =
        shouldMentionUser rules { context with guildId := none }) := by
  refine ⟨fun g hflag hguild hg hmem => ?_, shouldMentionUser_empty_guild rules context⟩
  have h : inList context.guildId rules.blacklistServers = true := by
    rw [hguild]; exact (inList_some g rules.blacklistServers).2 ⟨hg, hmem⟩
  simp [shouldMentionUser, decision_eq, h, hflag]

/-- A whitelisted target in a guild that is both blocked and a ping server is
not mentioned when the override is off. -/
theorem shouldMentionUser_guild_blacklisted_witness :
    shouldMentionUser
      { defaultSettings with
        whitelist := ["U1"], pingServers := ["G1"], blacklistServers := ["G1"] }
      ⟨some "U1", some "G1", false⟩ = false :=
  (shouldMentionUser_guild_blacklisted _ ⟨some "U1", some "G1", false⟩).1 "G1" rfl rfl
    (by decide) (by decide)

/-- C4 (as it fails): with `serverBlacklistRespectsWhitelist` true, the guild `G1`
in `blacklistServers` and a whitelist that holds the empty string, a target
that is the empty string is in the whitelist and not in the blacklist, and
`shouldMentionUser` returns false in `G1`. -/
theorem shouldMentionUser_whitelist_override_empty_target :
    emptyWhitelistedRules.serverBlacklistRespectsWhitelist = true ∧
    "G1" ∈ emptyWhitelistedRules.blacklistServers ∧
    "" ∈ emptyWhitelistedRules.whitelist ∧
    "" ∉ emptyWhitelistedRules.blacklist ∧
    shouldMentionUser emptyWhitelistedRules ⟨some "", some "G1", false⟩ = false := by
  decide

/-- C4 (amended): with `serverBlacklistRespectsWhitelist` true, a target that is
not the empty string, is in the whitelist and is not in the blacklist is
mentioned in a guild that is a member of `blacklistServers`; a target that is
the empty string is treated as absent: `shouldMentionUser` returns what it
returns for the context without target. -/
theorem shouldMentionUser_whitelist_override (rules : Settings) (context : Context) :
    (∀ u g : String, rules.serverBlacklistRespectsWhitelist = true →
      context.guildId = some g → g ∈ rules.blacklistServers →
      context.targetUserId = some u → u ≠ "" → u ∈ rules.whitelist → u ∉ rules.blacklist →
      shouldMentionUser rules context = true) ∧
    (context.targetUserId = some "" →
      shouldMentionUser rules context =
        shouldMentionUser rules { context with targetUserId := none }) := by
  refine ⟨fun u g hflag _ _ htarget hu hwhite hblack => ?_,
    shouldMentionUser_empty_target rules context⟩
  have hw : inList context.targetUserId rules.whitelist = true := by
    rw [htarget]; exact (inList_some u rules.whitelist).2 ⟨hu, hwhite⟩
  have hb : inList context.targetUserId rules.blacklist = false := by
    rw [htarget, ← Bool.not_eq_true, inList_some]; exact fun h => hblack h.2
  simp [shouldMentionUser, decision_eq, hw, hb, hflag]

/-- A whitelisted target in a blocked guild is mentioned when the override is
on. -/
theorem shouldMentionUser_whitelist_override_witness :
    shouldMentionUser
      { defaultSettings with
        whitelist := ["U1"], blacklistServers := ["G1"],
        serverBlacklistRespectsWhitelist := true }
      ⟨some "U1", some "G1", false⟩ = true :=
  (shouldMentionUser_whitelist_override _ ⟨some "U1", some "G1", false⟩).1 "U1" "G1" rfl rfl
    (by decide) rfl (by decide) (by decide) (by decide)

/-- C5 (as it fails): with `pingInDMs` set and all lists empty, the context
without target whose guild id is the empty string and whose `isDM` is true meets
the premises (target absent, guild not in `blacklistServers`); the guild is
neither present in `pingServers` nor absent, and `shouldMentionUser` returns
true. -/
theorem shouldMentionUser_defaults_empty_guild :
    ¬ presentIn (some "") pingInDMsRules.blacklistServers ∧
    ¬ presentIn (some "") pingInDMsRules.pingServers ∧
    (some "" : Option String) ≠ none ∧
    shouldMentionUser pingInDMsRules ⟨none, some "", true⟩ = true := by
  decide

/-- C5 (amended): when the target is absent or in neither user list and the guild
is absent or not in `blacklistServers`, `shouldMentionUser` returns true exactly
when the guild is present, not the empty string and in `pingServers`, or the
guild is absent or the empty string, the conversation is direct and `pingInDMs`
is set. -/
theorem shouldMentionUser_defaults (rules : Settings) (context : Context)
    (htarget : context.targetUserId = none ∨
      (¬ presentIn context.targetUserId rules.whitelist ∧
        ¬ presentIn context.targetUserId rules.blacklist))
    (hguild : context.guildId = none ∨ ¬ presentIn context.guildId rules.blacklistServers) :
    shouldMentionUser rules context = true ↔
      ((presentIn context.guildId rules.pingServers ∧ context.guildId ≠ some "") ∨
        ((context.guildId = none ∨ context.guildId = some "") ∧
          context.isDM = true ∧ rules.pingInDMs = true)) := by
  obtain ⟨t, g, d⟩ := context
  cases t <;> cases g <;>
    simp only [shouldMentionUser, decision_eq, presentIn, inList, idTruthy] at * <;>
    simp at htarget hguild ⊢ <;>
    tauto

/-- Scenarios B and C: target `U2` in the ping server `G1` gives true, and with
`pingInDMs` a target `U3` in a direct conversation gives true. -/
theorem shouldMentionUser_defaults_witness :
    shouldMentionUser scenarioRules ⟨some "U2", some "G1", false⟩ = true ∧
    shouldMentionUser pingInDMsRules ⟨some "U3", none, true⟩ = true :=
  ⟨(shouldMentionUser_defaults scenarioRules ⟨some "U2", some "G1", false⟩
      (Or.inr (by decide)) (Or.inr (by decide))).2 (Or.inl (by decide)),
   (shouldMentionUser_defaults pingInDMsRules
      ⟨some "U3", none, true⟩ (Or.inr (by decide)) (Or.inl rfl)).2
      (Or.inr ⟨Or.inl rfl, rfl, rfl⟩)⟩

/-- C6: with all four lists empty and both decision flags false,
`shouldMentionUser` returns false for every context. -/
theorem shouldMentionUser_emptyRules (enableLogging verboseLogging : Bool)
    (context : Context) :
    shouldMentionUser (emptyRules enableLogging verboseLogging) context = false := by
  obtain ⟨t, g, d⟩ := context
  cases t <;> cases g <;>
    simp [shouldMentionUser, decision_eq, emptyRules, defaultSettings, inList, idTruthy]

/-! ## The settings store, the parser and the mutators -/

/-- C7 (as it fails): the bulk replace of the whitelist by the text `a a`
stores the identifier `a` twice. -/
theorem bulkReplace_stores_duplicates :
    (bulkReplace .whitelist "a a" defaultSettings).whitelist = ["a", "a"] ∧
    defaultSettings.NoDuplicates ∧
    ¬ (bulkReplace .whitelist "a a" defaultSettings).NoDuplicates := by
  decide

/-- C7 (amended): the bulk replace stores `parseList(text)` as it is, so the list
stored is free of duplicates exactly when the tokens of the text are pairwise
distinct; `addToList` and `removeFromList` preserve the no-duplicates
invariant, and so does a bulk replace by a text of pairwise distinct tokens. -/
theorem noDuplicates_mutation_paths :
    (∀ (l : ListName) (text : String) (s : Settings),
      (bulkReplace l text s).getList l = parseList text) ∧
    (∀ (l : ListName) (id : String) (s : Settings),
      s.NoDuplicates → (addToList l id s).NoDuplicates) ∧
    (∀ (l : ListName) (id : String) (s : Settings),
      s.NoDuplicates → (removeFromList l id s).NoDuplicates) ∧
    (∀ (l : ListName) (text : String) (s : Settings),
      s.NoDuplicates → ((bulkReplace l text s).NoDuplicates ↔ (parseList text).Nodup)) := by
  refine ⟨fun l text s => getList_setList s l _, noDuplicates_addToList,
    noDuplicates_removeFromList, fun l text s hs => ⟨fun h => ?_, fun h => ?_⟩⟩
  · have := h l
    rwa [bulkReplace, getList_setList] at this
  · exact noDuplicates_setList s l _ hs h

/-- C8 (as it fails): a persisted record whose `blacklist` is `null` is loaded
with `blacklist` still `null`, not the default `[]`, and `shouldMentionUser`
then throws on a reply to a user. -/
theorem loadSettings_keeps_malformed :
    (loadSettings (.obj [("blacklist", .null)])).blacklist = .null ∧
    (loadSettings (.obj [("blacklist", .null)])).wellTyped = false ∧
    shouldMentionUserJS (loadSettings (.obj [("blacklist", .null)]))
      ⟨some "U1", none, true⟩ = .error .typeError := by
  refine ⟨rfl, rfl, rfl⟩

/-- C8 (amended): `loadSettings` substitutes the defaults when nothing truthy is
stored, and when every property of the persisted record has the type of its
default the settings loaded consist of four arrays of strings and boolean
flags: they are well-typed settings on which `shouldMentionUser` never throws. -/
theorem loadSettings_wellTyped :
    (∀ loaded : JSVal, loaded.truthy = false → loadSettings loaded = defaultSettings.toRaw) ∧
    (∀ loaded : JSVal, (∀ p ∈ loaded.ownProps, propWellTyped p.1 p.2 = true) →
      (loadSettings loaded).wellTyped = true ∧
      ∃ s : Settings, loadSettings loaded = s.toRaw ∧
        ∀ context, shouldMentionUserJS (loadSettings loaded) context =
          .ok (shouldMentionUser s context)) := by
  constructor
  · intro loaded h
    simp [loadSettings, h, objectAssign, JSVal.ownProps]
  · intro loaded h
    have hwt : (loadSettings loaded).wellTyped = true := by
      unfold loadSettings objectAssign
      by_cases ht : loaded.truthy = true
      · simp only [ht, if_true]
        exact wellTyped_foldl_set _ _ (wellTyped_toRaw _) h
      · simp only [ht, Bool.false_eq_true, if_false, JSVal.ownProps, List.foldl_nil]
        exact wellTyped_toRaw _
    obtain ⟨s, hs⟩ := exists_toRaw_of_wellTyped _ hwt
    exact ⟨hwt, s, hs, fun context => by rw [hs]; exact shouldMentionUserJS_toRaw s context⟩

/-- C9: `parseList(text)` is the sequence, in order of occurrence, of the maximal
non-empty substrings of the text free of white space and commas; no token is
empty or holds a separator; `"a, b\nc  d"` gives `a`, `b`, `c`, `d` and the
empty text gives no token. -/
theorem parseList_tokenizes (text : String) :
    Tokenizes text.toList ((parseList text).map String.toList) ∧
    (∀ toks, Tokenizes text.toList toks → toks = (parseList text).map String.toList) ∧
    (∀ t ∈ parseList text, t ≠ "" ∧ ∀ c ∈ t.toList, isSeparator c = false) ∧
    parseList "a, b\nc  d" = ["a", "b", "c", "d"] ∧ parseList "" = [] := by
  have h := tokenizes_parseChars text.toList
  rw [← map_toList_parseList] at h
  refine ⟨h, fun toks ht => ht.unique h, fun t ht => ?_, by decide, by decide⟩
  obtain ⟨hne, hfree⟩ := tokenizes_separator_free h t.toList (List.mem_map_of_mem _ ht)
  refine ⟨fun e => hne (by rw [e]; rfl), hfree⟩

/-- C10: `addToList` is idempotent: a second call with the same list name and
id leaves the settings as the first call made them, on well-typed settings and
on every settings object; after a call with a non-empty id the list holds the
id. -/
theorem addToList_idempotent (listName : ListName) (id : String) :
    (∀ settings : Settings,
      addToList listName id (addToList listName id settings) =
        addToList listName id settings) ∧
    (∀ settings : RawSettings,
      addToListJS listName id (addToListJS listName id settings) =
        addToListJS listName id settings) ∧
    (∀ settings : Settings, id ≠ "" →
      id ∈ (addToList listName id settings).getList listName) := by
  refine ⟨fun s => ?_, addToListJS_idempotent listName id, fun s hid => ?_⟩
  · by_cases hid : id = ""
    · simp [addToList, hid]
    · by_cases hmem : id ∈ s.getList listName
      · rw [addToList_of_mem listName id s hmem, addToList_of_mem listName id s hmem]
      · rw [addToList_of_not_mem listName id s hid hmem]
        exact addToList_of_mem listName id _ (by simp [getList_setList])
  · by_cases hmem : id ∈ s.getList listName
    · rw [addToList_of_mem listName id s hmem]; exact hmem
    · rw [addToList_of_not_mem listName id s hid hmem]
      simp [getList_setList]

/-- C11 (as it fails): with the empty id `removeFromList` returns at once, so
an empty string held by the list stays a member, whereas deleting every
occurrence of the id would leave the list empty. -/
theorem removeFromList_empty_id_kept :
    (removeFromList .whitelist "" { defaultSettings with whitelist := [""] }).whitelist = [""] ∧
    "" ∈ (removeFromList .whitelist "" { defaultSettings with whitelist := [""] }).whitelist ∧
    [""].filter (fun x => x != "") = [] := by
  decide

/-- C11 (amended): for every settings state, list name and id, `removeFromList`
leaves the other lists and the flags unchanged, and leaves the settings
unchanged when the id is no member of the named list; with the empty id it
returns at once and changes nothing; for an id that is not empty (or an empty
id on a list that holds no empty string) the named list becomes the original
with every occurrence of the id deleted and the other identifiers in their
order, and the id is no member afterwards. -/
theorem removeFromList_deletes (listName : ListName) (id : String) (settings : Settings) :
    (id = "" → removeFromList listName id settings = settings) ∧
    (id ≠ "" ∨ "" ∉ settings.getList listName →
      (removeFromList listName id settings).getList listName =
        (settings.getList listName).filter (fun x => x != id) ∧
      id ∉ (removeFromList listName id settings).getList listName) ∧
    (id ∉ settings.getList listName → removeFromList listName id settings = settings) ∧
    (∀ other, other ≠ listName →
      (removeFromList listName id settings).getList other = settings.getList other) ∧
    (removeFromList listName id settings).pingInDMs = settings.pingInDMs ∧
    (removeFromList listName id settings).enableLogging = settings.enableLogging ∧
    (removeFromList listName id settings).verboseLogging = settings.verboseLogging ∧
    (removeFromList listName id settings).serverBlacklistRespectsWhitelist =
      settings.serverBlacklistRespectsWhitelist := by
  have hfilter : id ∉ settings.getList listName →
      (settings.getList listName).filter (fun x => x != id) = settings.getList listName := by
    intro hmem
    rw [List.filter_eq_self]
    intro a ha
    simpa using fun e : a = id => hmem (e ▸ ha)
  by_cases he : id = ""
  · have hsame : removeFromList listName id settings = settings := by
      simp [removeFromList, he]
    rw [hsame]
    refine ⟨fun _ => rfl, fun hid => ?_, fun _ => rfl, fun _ _ => rfl, rfl, rfl, rfl, rfl⟩
    have hno : id ∉ settings.getList listName := by
      rcases hid with h | h
      · exact absurd he h
      · rw [he]; exact h
    exact ⟨(hfilter hno).symm, hno⟩
  · have hrem : removeFromList listName id settings =
        settings.setList listName ((settings.getList listName).filter fun x => x != id) := by
      simp [removeFromList, he]
    rw [hrem]
    refine ⟨fun h => absurd h he, fun _ => ⟨getList_setList _ _ _, ?_⟩, fun hmem => ?_,
      fun other ho => ?_, ?_, ?_, ?_, ?_⟩
    · rw [getList_setList]; simp
    · rw [hfilter hmem, setList_getList]
    · exact getList_setList_of_ne _ _ ho
    all_goals cases listName <;> rfl

/-- A call with a non-empty id on a list that holds it twice, a call with the
empty id on a list without empty string, and a call with the empty id on a list
that holds the empty string. -/
theorem removeFromList_deletes_witness :
    (removeFromList .blacklist "U1"
        { defaultSettings with blacklist := ["U1", "U2", "U1"] }).blacklist = ["U2"] ∧
    (removeFromList .blacklist ""
        { defaultSettings with blacklist := ["U1", "U2", "U1"] }).blacklist =
      ["U1", "U2", "U1"] ∧
    removeFromList .whitelist "" { defaultSettings with whitelist := [""] } =
      { defaultSettings with whitelist := [""] } :=
  ⟨((removeFromList_deletes .blacklist "U1"
      { defaultSettings with blacklist := ["U1", "U2", "U1"] }).2.1
        (Or.inl (by decide))).1,
   ((removeFromList_deletes .blacklist ""
      { defaultSettings with blacklist := ["U1", "U2", "U1"] }).2.1
        (Or.inr (by decide))).1.trans (by decide),
   (removeFromList_deletes .whitelist "" { defaultSettings with whitelist := [""] }).1 rfl⟩

/-- C12: `loadSettings` merges field by field: a field present in the persisted
record has the persisted value in the result, a field absent from it has the
hard-coded default (empty lists, `pingInDMs` and
`serverBlacklistRespectsWhitelist` false), and with no record persisted the
result is the defaults. -/
theorem loadSettings_merges :
    (∀ (props : List (String × JSVal)) (key : String) (value : JSVal),
      key ∈ settingNames → (props.map Prod.fst).Nodup → (key, value) ∈ props →
      (loadSettings (.obj props)).get key = value) ∧
    (∀ (props : List (String × JSVal)) (key : String),
      key ∉ props.map Prod.fst →
      (loadSettings (.obj props)).get key = defaultSettings.toRaw.get key) ∧
    loadSettings .undefined = defaultSettings.toRaw ∧
    loadSettings .null = defaultSettings.toRaw ∧
    (defaultSettings.toRaw.whitelist = .arr [] ∧ defaultSettings.toRaw.blacklist = .arr [] ∧
      defaultSettings.toRaw.pingServers = .arr [] ∧
      defaultSettings.toRaw.blacklistServers = .arr [] ∧
      defaultSettings.toRaw.pingInDMs = .bool false ∧
      defaultSettings.toRaw.serverBlacklistRespectsWhitelist = .bool false) := by
  refine ⟨fun props key value hkey hnd hmem => ?_, fun props key hkey => ?_, rfl, rfl,
    rfl, rfl, rfl, rfl, rfl, rfl⟩
  · exact get_foldl_set_of_mem props key value hkey _ hnd hmem
  · exact get_foldl_set_of_not_mem props key _ hkey

/-- A record that holds `blacklist` and `pingInDMs` only: both are read back
and `whitelist` has its default. -/
theorem loadSettings_merges_witness :
    (loadSettings (.obj [("blacklist", .arr [.str "U1"]), ("pingInDMs", .bool true)])).get
        "blacklist" = .arr [.str "U1"] ∧
    (loadSettings (.obj [("blacklist", .arr [.str "U1"]), ("pingInDMs", .bool true)])).get
        "whitelist" = .arr [] :=
  ⟨loadSettings_merges.1 _ "blacklist" _ (by decide) (by decide)
    (List.mem_cons_self _ _),
   (loadSettings_merges.2.1 _ "whitelist" (by decide)).trans rfl⟩

/-- C13: the empty string is never stored in a rule list: `addToList` with an
empty id leaves the settings unchanged, and when no list holds the empty
string, none does after `addToList`, `removeFromList` or a bulk replace by
`parseList(text)`; the defaults hold no empty string. -/
theorem noEmpty_mutation_paths :
    defaultSettings.NoEmpty ∧
    (∀ (l : ListName) (s : Settings), addToList l "" s = s) ∧
    (∀ (l : ListName) (r : RawSettings), addToListJS l "" r = r) ∧
    (∀ (l : ListName) (id : String) (s : Settings),
      s.NoEmpty → (addToList l id s).NoEmpty) ∧
    (∀ (l : ListName) (id : String) (s : Settings),
      s.NoEmpty → (removeFromList l id s).NoEmpty) ∧
    (∀ (l : ListName) (text : String) (s : Settings),
      s.NoEmpty → (bulkReplace l text s).NoEmpty) :=
  ⟨by decide, addToList_empty, fun l r => by simp [addToListJS], noEmpty_addToList,
    noEmpty_removeFromList, noEmpty_bulkReplace⟩

/-- From the scenario rules, an add, a bulk replace by a text with leading,
doubled and trailing separators, and a remove leave no empty string. -/
theorem noEmpty_mutation_paths_witness :
    (removeFromList .blacklist "U1"
      (bulkReplace .pingServers " ,G1,, G2 , " (addToList .whitelist "U7" scenarioRules))).NoEmpty :=
  noEmpty_mutation_paths.2.2.2.2.1 _ _ _
    (noEmpty_mutation_paths.2.2.2.2.2 _ _ _
      (noEmpty_mutation_paths.2.2.2.1 _ _ _ (by decide)))

/-- C14: deny lists are monotone: when `shouldMentionUser` returns false for a
context, it returns false for that context after any identifier is added to
the blacklist, and after any identifier is added to `blacklistServers`. -/
theorem shouldMentionUser_denyList_monotone (rules : Settings) (context : Context)
    (x : String) (h : shouldMentionUser rules context = false) :
    shouldMentionUser (addToList .blacklist x rules) context = false ∧
    shouldMentionUser (addToList .blacklistServers x rules) context = false := by
  constructor
  · rcases addToList_cases .blacklist x rules with e | e
    · rw [e]; exact h
    · rw [e]
      exact decision_false_of_userBlacklist _ _ _ _ _ _ _ _ _ h
        (inList_mono context.targetUserId fun y hy => List.mem_append_left _ hy)
  · rcases addToList_cases .blacklistServers x rules with e | e
    · rw [e]; exact h
    · rw [e]
      exact decision_false_of_guildBlacklist _ _ _ _ _ _ _ _ _ h
        (inList_mono context.guildId fun y hy => List.mem_append_left _ hy)

/-- A user in no list in a guild in no list is not mentioned, and is not after
the user joins the blacklist or the guild joins `blacklistServers`. -/
theorem shouldMentionUser_denyList_monotone_witness :
    shouldMentionUser scenarioRules ⟨some "U3", some "G2", false⟩ = false ∧
    shouldMentionUser (addToList .blacklist "U3" scenarioRules)
      ⟨some "U3", some "G2", false⟩ = false ∧
    shouldMentionUser (addToList .blacklistServers "G2" scenarioRules)
      ⟨some "U3", some "G2", false⟩ = false :=
  ⟨by decide,
   (shouldMentionUser_denyList_monotone scenarioRules ⟨some "U3", some "G2", false⟩ "U3"
      (by decide)).1,
   (shouldMentionUser_denyList_monotone scenarioRules ⟨some "U3", some "G2", false⟩ "G2"
      (by decide)).2⟩

end NoReplyMention
